import Mathlib

/-!
# Verification of `src/code_submission/model_lib/arma.py` (AutoGL ARMA model)

Shallow embedding of the ARMA model adapter: the constructor state, the
hyperparameter dictionary, the architecture builder `init_model`, the
symbolic forward pass, the early-stopping training loop `train_valid`,
the per-round driver `trial`, and `predict`.

Modelling conventions:
* Validation F1 scores and per-epoch test-mask prediction matrices are
  external inputs (they come from the ML engine / dataset, which are out
  of scope); the bespoke logic consuming them is embedded faithfully.
* A prediction matrix is `List (List ℚ)`: one row of class probabilities
  per test-mask node (the code caches `preds[test_mask]`, a softmax
  probability matrix).
* Python exceptions are values carrying their class; `trial`'s
  `except RuntimeError` clause keys only on the class.  The `while True:`
  loop in `trial` executes its body exactly once: the `try` block ends in
  `break` and the `except` block ends in `return`, so the embedding is
  straight-line.
* Layer parameter tensors are abstracted to allocation identifiers
  (`Nat`), handed out by a counter: `init_model` re-instantiating a layer
  means assigning a fresh identifier to that attribute.
-/

namespace ARMA

/-- A prediction matrix: one row of class probabilities per node. -/
abbrev Mat := List (List ℚ)

/-- The `info` mapping handed to the constructor (arma.py lines 33-42). -/
structure Info where
  num_layers : Nat
  lr : ℚ
  dropedge_rate : Option ℚ
  dropout_rate : ℚ
  init_hidden_size : Nat
  use_linear : Bool
  n_class : Nat
deriving DecidableEq

/-- The hyperparameter dictionary `self.hyperparameters`
(arma.py lines 33-42). -/
structure HP where
  num_layers : Nat
  lr : ℚ
  num_stacks : Nat
  conv_layers : Nat
  dropedge_rate : Option ℚ
  dropout_rate : ℚ
  hidden : Nat
  use_linear : Bool
deriving DecidableEq

/-- The initial configuration built in `__init__` (arma.py lines 33-42):
`num_stacks = 1`, `conv_layers = 1`, `dropout_rate = 0.5`, the rest from
`info`. -/
def initHP (info : Info) : HP :=
  { num_layers := info.num_layers
    lr := info.lr
    num_stacks := 1
    conv_layers := 1
    dropedge_rate := info.dropedge_rate
    dropout_rate := 1/2
    hidden := info.init_hidden_size
    use_linear := info.use_linear }

/-- The mutable fields of the `ARMA` object that the round logic reads and
writes (arma.py lines 20-43).  `hist_score` and `best_valid_score` are set
in the constructor and never touched again; they are kept for fidelity. -/
structure State where
  best_score : ℚ
  hist_score : List ℚ
  best_preds : Option Mat
  current_round_best_preds : Option Mat
  best_valid_score : ℚ
  max_patience : Nat
  max_epochs : Nat
  hyperparameters : HP
  best_hp : Option HP
deriving DecidableEq

/-- The constructor `__init__` (arma.py lines 15-44): zero best score, no
cached predictions, patience bound 100, epoch bound 1600, the fixed
initial configuration, no best configuration yet. -/
def initState (info : Info) : State :=
  { best_score := 0
    hist_score := []
    best_preds := none
    current_round_best_preds := none
    best_valid_score := 0
    max_patience := 100
    max_epochs := 1600
    hyperparameters := initHP info
    best_hp := none }

/-- Modelled from the spec: `AverageMeter` is imported from `utils.tools`,
which is not under `src/`.  Per the spec's training-loop section, it keeps
"a running average of the validation score (window = all epochs so far,
not just recent)": a running sum and a count, whose quotient is `avg`. -/
structure AverageMeter where
  sum : ℚ
  count : Nat
deriving DecidableEq

/-- Modelled from the spec: folding one more value into the running
average. -/
def AverageMeter.update (m : AverageMeter) (v : ℚ) : AverageMeter :=
  { sum := m.sum + v, count := m.count + 1 }

/-- Modelled from the spec: the running average over all values seen so
far (0 before any value is seen). -/
def AverageMeter.avg (m : AverageMeter) : ℚ :=
  if m.count = 0 then 0 else m.sum / (m.count : ℚ)

/-- The per-epoch loop state of `train_valid` (arma.py lines 162-164):
the patience counter (an integer, so that non-negativity is a theorem and
not a truncation artifact), the local `best_valid_score`, the running
average meter, and the cached test-mask predictions
`self.current_round_best_preds`. -/
structure TVState where
  patience : Int
  best_valid_score : ℚ
  meter : AverageMeter
  cached : Option Mat
deriving DecidableEq

/-- One epoch of `train_valid` after the gradient step (arma.py lines
182-189): fold the epoch's validation score into the running average; if
the new running average strictly exceeds the best seen, record it, cache
this epoch's test predictions and reset patience; otherwise decrement
patience. -/
def tvStep (max_patience : Int) (s : TVState) (score : ℚ) (preds : Mat) :
    TVState :=
  let m := s.meter.update score
  if m.avg > s.best_valid_score then
    { patience := max_patience
      best_valid_score := m.avg
      meter := m
      cached := some preds }
  else
    { s with meter := m, patience := s.patience - 1 }

/-- The epoch loop of `train_valid` (arma.py lines 165-192), run over a
list of epoch indices: execute an epoch, then stop if patience reached 0
(`if patience == 0: break`).  Returns the final loop state together with
the trace of loop states after each executed epoch. -/
def tvRun (max_patience : Int) (scores : Nat → ℚ) (preds : Nat → Mat) :
    List Nat → TVState → TVState × List TVState
  | [], s => (s, [])
  | e :: es, s =>
    let s' := tvStep max_patience s (scores e) (preds e)
    if s'.patience = 0 then (s', [s'])
    else
      let r := tvRun max_patience scores preds es s'
      (r.1, s' :: r.2)

/-- The loop state entering epoch 0 (arma.py lines 162-164): patience is
`self.max_patience`, the local `best_valid_score` is 0, the meter is
fresh, and `self.current_round_best_preds` holds whatever a previous round
left there. -/
def train_validInit (st : State) : TVState :=
  { patience := (st.max_patience : Int)
    best_valid_score := 0
    meter := { sum := 0, count := 0 }
    cached := st.current_round_best_preds }

/-- `train_valid(self, data, round_num)` (arma.py lines 158-194).  The
per-epoch validation F1 scores and test-mask prediction matrices are
external inputs (functions of the epoch index).  Returns the local
`best_valid_score` and the object state with
`self.current_round_best_preds` updated by the loop. -/
def train_valid (st : State) (scores : Nat → ℚ) (preds : Nat → Mat) :
    ℚ × State :=
  let fin := (tvRun (st.max_patience : Int) scores preds
    (List.range st.max_epochs) (train_validInit st)).1
  (fin.best_valid_score, { st with current_round_best_preds := fin.cached })

/-- The trace of loop states of one `train_valid` call, one entry per
executed epoch. -/
def train_validTrace (st : State) (scores : Nat → ℚ) (preds : Nat → Mat) :
    List TVState :=
  (tvRun (st.max_patience : Int) scores preds
    (List.range st.max_epochs) (train_validInit st)).2

/-- `predict(self)` (arma.py lines 196-197): returns
`self.current_round_best_preds` (as a plain numeric array; `none` means
the attribute is `None` and the call crashes). -/
def predict (st : State) : Option Mat :=
  st.current_round_best_preds

/-- Python exception classes relevant to the round boundary.  In the
source framework, accelerator out-of-memory is raised as a
`RuntimeError` — and so are, e.g., tensor shape mismatches. -/
inductive ExcClass
  | runtimeError
  | typeError
  | keyError
  | valueError
  | attributeError
deriving DecidableEq

/-- A raised Python exception: its class, and whether it is an accelerator
out-of-memory condition.  `except RuntimeError` keys only on `cls`. -/
structure PyExc where
  cls : ExcClass
  isOOM : Bool
deriving DecidableEq

/-- What the external ML engine does during one round's
`init_model` + `train_valid` body: either it completes, supplying the
per-epoch validation scores and test predictions, or it raises an
exception. -/
inductive RoundOutcome
  | success (scores : Nat → ℚ) (preds : Nat → Mat)
  | raises (e : PyExc)

/-- One `self.tuner.receive_trial_result(idx, hp, score)` call. -/
structure TunerCall where
  idx : Nat
  hp : HP
  score : ℚ
deriving DecidableEq

/-- The observable result of one `trial` call: the returned value (or the
propagated exception), the post-call object state, and the sequence of
`receive_trial_result` calls made to the tuner. -/
structure TrialResult where
  result : Except PyExc ℚ
  state : State
  tunerCalls : List TunerCall

/-- The configuration used by round `round_num` (arma.py lines 137-138):
`generate_parameters(round_num - 1)` when `round_num >= 2`, otherwise the
configuration already stored on the object. -/
def trialHP (s : State) (gen : Nat → HP) (round_num : Nat) : HP :=
  if 2 ≤ round_num then gen (round_num - 1) else s.hyperparameters

/-- `trial(self, data, round_num)` (arma.py lines 135-156).  The `gen`
function is the tuner's `generate_parameters`.  The `while True:` loop
body runs exactly once (the `try` block ends in `break`, the `except`
block in `return`), so the embedding is straight-line:
* choose the round's configuration and store it in
  `self.hyperparameters`;
* on success: `val = train_valid(...)`; report `val` to the tuner when
  `round_num > 1`; deep-copy the configuration into `self.best_hp` when
  `val > self.best_score` (`best_score` itself is not written); return
  `val`;
* on a `RuntimeError` (the only class named in the `except` clause):
  report score 0 to the tuner when `round_num > 1` and return 0;
* on an exception of any other class: it propagates out of `trial`. -/
def trial (s : State) (gen : Nat → HP) (outcome : RoundOutcome)
    (round_num : Nat) : TrialResult :=
  let hp := trialHP s gen round_num
  let s1 := { s with hyperparameters := hp }
  match outcome with
  | .success scores preds =>
    let r := train_valid s1 scores preds
    let val := r.1
    let s2 := r.2
    let calls : List TunerCall :=
      if 1 < round_num then [⟨round_num - 1, hp, val⟩] else []
    let s3 := if val > s2.best_score then { s2 with best_hp := some hp } else s2
    ⟨.ok val, s3, calls⟩
  | .raises e =>
    if e.cls = .runtimeError then
      let calls : List TunerCall :=
        if 1 < round_num then [⟨round_num - 1, hp, 0⟩] else []
      ⟨.ok 0, s1, calls⟩
    else
      ⟨.error e, s1, []⟩

/-- The external inputs of one orchestrated round: the tuner's
`generate_parameters`, the engine outcome, and the round number. -/
structure RoundInput where
  gen : Nat → HP
  outcome : RoundOutcome
  num : Nat

/-- A sequence of `trial` calls threaded through the object state, as the
orchestrator performs them. -/
def runRounds : State → List RoundInput → State
  | s, [] => s
  | s, r :: rs => runRounds (trial s r.gen r.outcome r.num).state rs

/-- The layer attributes of the module and the optimizer's parameter
list, with parameter tensors abstracted to allocation identifiers
(arma.py lines 81-111).  `nextId` is the allocation counter: identifiers
below it have been handed out by earlier `init_model` calls.  An attribute
is `none` while it has never been assigned; a Python attribute assignment
replaces the stored value but assignments in one branch do not clear
attributes set by other branches in earlier calls. -/
structure ModelFields where
  input_lin : Option Nat := none
  output_lin : Option Nat := none
  conv1 : Option Nat := none
  convs : Option (List Nat) := none
  conv2 : Option Nat := none
  optimizerParams : List Nat := []
  nextId : Nat := 0
deriving DecidableEq

/-- `self.parameters()`: the parameters of every layer currently stored in
a module attribute, whichever `init_model` call created it. -/
def registeredParams (m : ModelFields) : List Nat :=
  m.input_lin.toList ++ m.conv1.toList ++ m.convs.getD [] ++
    m.conv2.toList ++ m.output_lin.toList

/-- `init_model(self, n_class, feature_num)` (arma.py lines 81-111).
Depending on `use_linear` and `num_layers`, instantiate fresh layers
(fresh identifiers) for: `input_lin`, `num_layers` entries of `convs` and
`output_lin`; or a single `conv1`; or `conv1`, `num_layers - 2` entries of
`convs` and `conv2`.  Then `self.optimizer = Adam(self.parameters(), ...)`
binds the optimizer to every currently registered parameter.  The tensor
shapes (`2 ** hidden`, `n_class`, `feature_num`) do not affect identifier
bookkeeping and are abstracted away. -/
def init_model (m : ModelFields) (hp : HP) : ModelFields :=
  let nl := hp.num_layers
  if hp.use_linear then
    let m1 := { m with
      input_lin := some m.nextId
      convs := some ((List.range nl).map fun i => m.nextId + 1 + i)
      output_lin := some (m.nextId + 1 + nl)
      nextId := m.nextId + nl + 2 }
    { m1 with optimizerParams := registeredParams m1 }
  else if nl = 1 then
    let m1 := { m with
      conv1 := some m.nextId
      nextId := m.nextId + 1 }
    { m1 with optimizerParams := registeredParams m1 }
  else
    let m1 := { m with
      conv1 := some m.nextId
      convs := some ((List.range (nl - 2)).map fun i => m.nextId + 1 + i)
      conv2 := some (m.nextId + 1 + (nl - 2))
      nextId := m.nextId + (nl - 2) + 2 }
    { m1 with optimizerParams := registeredParams m1 }

/-- The edge tensor fed to the convolutions: either the original
`edge_index`/`edge_weight`, or the result of `dropout_adj` at the
configured drop rate (arma.py lines 115-117). -/
inductive EExpr
  | orig
  | dropAdj (p : ℚ)
deriving DecidableEq

/-- The edge expression chosen by `forward`: `dropout_adj` is applied
exactly when `dropedge_rate` is not `None`. -/
def edgeExpr (hp : HP) : EExpr :=
  match hp.dropedge_rate with
  | some p => .dropAdj p
  | none => .orig

/-- The feature pipeline of `forward` as a syntax tree: the input feature
matrix and the operations arma.py lines 119-133 can apply to it.
`convAt i` is `self.convs[i]`; conv nodes record the edge expression they
consume. -/
inductive FExpr
  | input
  | relu (x : FExpr)
  | inputLin (x : FExpr)
  | outputLin (x : FExpr)
  | conv1 (e : EExpr) (x : FExpr)
  | convAt (i : Nat) (e : EExpr) (x : FExpr)
  | conv2 (e : EExpr) (x : FExpr)
  | dropout (p : ℚ) (x : FExpr)
deriving DecidableEq

/-- `for conv in self.convs: x = F.relu(conv(x, ...))`
(arma.py lines 127-128). -/
def applyConvs (e : EExpr) (idxs : List Nat) (x : FExpr) : FExpr :=
  idxs.foldl (fun a i => .relu (.convAt i e a)) x

/-- `forward(self, data)` (arma.py lines 113-133) as the syntax tree of
operations applied to the node features.  `nConvs` is the current length
of `self.convs` (set by the latest `init_model`).  With `use_linear`:
linear, ReLU, dropout, the convs loop, output linear.  Without: `conv1`,
ReLU, then an early return when `num_layers == 1`; otherwise dropout, the
convs loop, `conv2`. -/
def forwardExpr (hp : HP) (nConvs : Nat) : FExpr :=
  let e := edgeExpr hp
  if hp.use_linear then
    let x := FExpr.relu (.inputLin .input)
    let x := FExpr.dropout hp.dropout_rate x
    let x := applyConvs e (List.range nConvs) x
    FExpr.outputLin x
  else
    let x := FExpr.relu (.conv1 e .input)
    if hp.num_layers = 1 then x
    else
      let x := FExpr.dropout hp.dropout_rate x
      let x := applyConvs e (List.range nConvs) x
      FExpr.conv2 e x

/-! ## Step-level lemmas about one epoch of `train_valid` -/

lemma tvStep_meter (mp : Int) (s : TVState) (sc : ℚ) (p : Mat) :
    (tvStep mp s sc p).meter = s.meter.update sc := by
  unfold tvStep
  by_cases h : (s.meter.update sc).avg > s.best_valid_score <;> simp [h]

lemma tvStep_best (mp : Int) (s : TVState) (sc : ℚ) (p : Mat) :
    (tvStep mp s sc p).best_valid_score
      = max s.best_valid_score (s.meter.update sc).avg := by
  unfold tvStep
  by_cases h : (s.meter.update sc).avg > s.best_valid_score
  · simp [h, max_eq_right (le_of_lt h)]
  · simp [h, max_eq_left (le_of_not_lt h)]

lemma tvStep_cached_pos (mp : Int) (s : TVState) (sc : ℚ) (p : Mat)
    (h : (s.meter.update sc).avg > s.best_valid_score) :
    (tvStep mp s sc p).cached = some p := by
  simp [tvStep, h]

lemma tvStep_cached_neg (mp : Int) (s : TVState) (sc : ℚ) (p : Mat)
    (h : ¬ (s.meter.update sc).avg > s.best_valid_score) :
    (tvStep mp s sc p).cached = s.cached := by
  simp [tvStep, h]

lemma tvStep_patience_pos (mp : Int) (s : TVState) (sc : ℚ) (p : Mat)
    (h : (s.meter.update sc).avg > s.best_valid_score) :
    (tvStep mp s sc p).patience = mp := by
  simp [tvStep, h]

lemma tvStep_patience_neg (mp : Int) (s : TVState) (sc : ℚ) (p : Mat)
    (h : ¬ (s.meter.update sc).avg > s.best_valid_score) :
    (tvStep mp s sc p).patience = s.patience - 1 := by
  simp [tvStep, h]

/-! ## Run-level lemmas about the epoch loop -/

lemma tvRun_cons_stop (mp : Int) (sc : Nat → ℚ) (pr : Nat → Mat)
    (e : Nat) (es : List Nat) (s : TVState)
    (h0 : (tvStep mp s (sc e) (pr e)).patience = 0) :
    tvRun mp sc pr (e :: es) s
      = (tvStep mp s (sc e) (pr e), [tvStep mp s (sc e) (pr e)]) := by
  simp [tvRun, h0]

lemma tvRun_cons_go (mp : Int) (sc : Nat → ℚ) (pr : Nat → Mat)
    (e : Nat) (es : List Nat) (s : TVState)
    (h0 : ¬ (tvStep mp s (sc e) (pr e)).patience = 0) :
    tvRun mp sc pr (e :: es) s
      = ((tvRun mp sc pr es (tvStep mp s (sc e) (pr e))).1,
          tvStep mp s (sc e) (pr e) ::
            (tvRun mp sc pr es (tvStep mp s (sc e) (pr e))).2) := by
  simp [tvRun, h0]

lemma tvRun_length_le (mp : Int) (sc : Nat → ℚ) (pr : Nat → Mat) :
    ∀ (es : List Nat) (s : TVState),
      (tvRun mp sc pr es s).2.length ≤ es.length := by
  intro es
  induction es with
  | nil => intro s; simp [tvRun]
  | cons e es ih =>
    intro s
    by_cases h0 : (tvStep mp s (sc e) (pr e)).patience = 0
    · simp [tvRun, h0]
    · simpa [tvRun, h0, Nat.succ_le_succ_iff] using
        ih (tvStep mp s (sc e) (pr e))

lemma tvRun_ne_nil (mp : Int) (sc : Nat → ℚ) (pr : Nat → Mat)
    (e : Nat) (es : List Nat) (s : TVState) :
    (tvRun mp sc pr (e :: es) s).2 ≠ [] := by
  by_cases h0 : (tvStep mp s (sc e) (pr e)).patience = 0 <;>
    simp [tvRun, h0]

lemma tvRun_best_foldl (mp : Int) (sc : Nat → ℚ) (pr : Nat → Mat) :
    ∀ (es : List Nat) (s : TVState),
      (tvRun mp sc pr es s).1.best_valid_score
        = ((tvRun mp sc pr es s).2.map fun t => t.meter.avg).foldl max
            s.best_valid_score := by
  intro es
  induction es with
  | nil => intro s; simp [tvRun]
  | cons e es ih =>
    intro s
    have hbest := tvStep_best mp s (sc e) (pr e)
    have hmet := tvStep_meter mp s (sc e) (pr e)
    by_cases h0 : (tvStep mp s (sc e) (pr e)).patience = 0
    · rw [tvRun_cons_stop mp sc pr e es s h0]
      simp [hbest, hmet]
    · rw [tvRun_cons_go mp sc pr e es s h0]
      simp only [List.map_cons, List.foldl_cons]
      rw [ih (tvStep mp s (sc e) (pr e)), hbest, hmet]

lemma tvRun_trace_sum_nonneg (mp : Int) (sc : Nat → ℚ) (pr : Nat → Mat)
    (hnn : ∀ e, 0 ≤ sc e) :
    ∀ (es : List Nat) (s : TVState), 0 ≤ s.meter.sum →
      ∀ t ∈ (tvRun mp sc pr es s).2, 0 ≤ t.meter.sum := by
  intro es
  induction es with
  | nil => intro s _ t ht; simp [tvRun] at ht
  | cons e es ih =>
    intro s hs t ht
    have hsum : 0 ≤ (tvStep mp s (sc e) (pr e)).meter.sum := by
      rw [tvStep_meter]
      exact add_nonneg hs (hnn e)
    by_cases h0 : (tvStep mp s (sc e) (pr e)).patience = 0
    · simp [tvRun, h0] at ht
      subst ht; exact hsum
    · simp [tvRun, h0] at ht
      rcases ht with ht | ht
      · subst ht; exact hsum
      · exact ih (tvStep mp s (sc e) (pr e)) hsum t ht

lemma tvRun_patience_bounds (mp : Int) (sc : Nat → ℚ) (pr : Nat → Mat)
    (hmp : 0 < mp) :
    ∀ (es : List Nat) (s : TVState), 0 < s.patience → s.patience ≤ mp →
      ∀ t ∈ (tvRun mp sc pr es s).2, 0 ≤ t.patience ∧ t.patience ≤ mp := by
  intro es
  induction es with
  | nil => intro s _ _ t ht; simp [tvRun] at ht
  | cons e es ih =>
    intro s hpos hle t ht
    have hb : 0 ≤ (tvStep mp s (sc e) (pr e)).patience ∧
        (tvStep mp s (sc e) (pr e)).patience ≤ mp := by
      by_cases h : (s.meter.update (sc e)).avg > s.best_valid_score
      · rw [tvStep_patience_pos mp s (sc e) (pr e) h]
        exact ⟨le_of_lt hmp, le_refl mp⟩
      · rw [tvStep_patience_neg mp s (sc e) (pr e) h]
        omega
    by_cases h0 : (tvStep mp s (sc e) (pr e)).patience = 0
    · simp [tvRun, h0] at ht
      subst ht; exact hb
    · simp [tvRun, h0] at ht
      rcases ht with ht | ht
      · subst ht; exact hb
      · exact ih (tvStep mp s (sc e) (pr e))
          (lt_of_le_of_ne hb.1 (Ne.symm h0)) hb.2 t ht

lemma tvRun_early_stop (mp : Int) (sc : Nat → ℚ) (pr : Nat → Mat) :
    ∀ (es : List Nat) (s : TVState),
      (tvRun mp sc pr es s).2.length < es.length →
      ∀ t, (tvRun mp sc pr es s).2.getLast? = some t → t.patience = 0 := by
  intro es
  induction es with
  | nil => intro s h; simp [tvRun] at h
  | cons e es ih =>
    intro s hlen t hlast
    by_cases h0 : (tvStep mp s (sc e) (pr e)).patience = 0
    · rw [tvRun_cons_stop mp sc pr e es s h0] at hlast
      simp at hlast
      rw [← hlast]; exact h0
    · rw [tvRun_cons_go mp sc pr e es s h0] at hlen hlast
      simp only [List.length_cons, Nat.add_lt_add_iff_right] at hlen
      rcases htr : (tvRun mp sc pr es (tvStep mp s (sc e) (pr e))).2 with
        _ | ⟨t0, tr⟩
      · rcases hes : es with _ | ⟨e', es'⟩
        · rw [hes] at hlen; simp [htr] at hlen
        · exact absurd htr (by rw [hes]; exact tvRun_ne_nil mp sc pr e' es' _)
      · rw [htr, List.getLast?_cons_cons] at hlast
        exact ih (tvStep mp s (sc e) (pr e)) hlen t (by rw [htr]; exact hlast)

lemma tvRun_not_last_patience (mp : Int) (sc : Nat → ℚ) (pr : Nat → Mat) :
    ∀ (es : List Nat) (s : TVState) (k : Nat),
      k + 1 < (tvRun mp sc pr es s).2.length →
      ∀ t, (tvRun mp sc pr es s).2[k]? = some t → t.patience ≠ 0 := by
  intro es
  induction es with
  | nil => intro s k h; simp [tvRun] at h
  | cons e es ih =>
    intro s k hk t ht
    by_cases h0 : (tvStep mp s (sc e) (pr e)).patience = 0
    · rw [tvRun_cons_stop mp sc pr e es s h0] at hk
      simp at hk
    · rw [tvRun_cons_go mp sc pr e es s h0] at hk ht
      cases k with
      | zero =>
        simp at ht
        rw [← ht]; exact h0
      | succ k =>
        simp only [List.length_cons, Nat.add_lt_add_iff_right] at hk
        rw [List.getElem?_cons_succ] at ht
        exact ih (tvStep mp s (sc e) (pr e)) k hk t ht

lemma tvRun_cached_origin (mp : Int) (sc : Nat → ℚ) (pr : Nat → Mat) :
    ∀ (es : List Nat) (s : TVState),
      (tvRun mp sc pr es s).1.cached = s.cached ∨
        ∃ e ∈ es, (tvRun mp sc pr es s).1.cached = some (pr e) := by
  intro es
  induction es with
  | nil => intro s; left; simp [tvRun]
  | cons e es ih =>
    intro s
    have hc : (tvStep mp s (sc e) (pr e)).cached = s.cached ∨
        (tvStep mp s (sc e) (pr e)).cached = some (pr e) := by
      by_cases h : (s.meter.update (sc e)).avg > s.best_valid_score
      · right; exact tvStep_cached_pos mp s (sc e) (pr e) h
      · left; exact tvStep_cached_neg mp s (sc e) (pr e) h
    by_cases h0 : (tvStep mp s (sc e) (pr e)).patience = 0
    · rcases hc with hc | hc
      · left; simpa [tvRun, h0] using hc
      · right; exact ⟨e, by simp, by simpa [tvRun, h0] using hc⟩
    · rcases ih (tvStep mp s (sc e) (pr e)) with htail | ⟨e', he', htail⟩
      · rcases hc with hc | hc
        · left; simpa [tvRun, h0, htail] using hc
        · right; exact ⟨e, by simp, by simpa [tvRun, h0, htail] using hc⟩
      · right
        exact ⟨e', by simp [he'], by simpa [tvRun, h0] using htail⟩

/-! ## Helpers about `List.foldl max` -/

lemma foldl_max_init_le (l : List ℚ) : ∀ b : ℚ, b ≤ l.foldl max b := by
  induction l with
  | nil => intro b; simp
  | cons a l ih =>
    intro b
    exact le_trans (le_max_left b a) (ih (max b a))

lemma mem_le_foldl_max (l : List ℚ) :
    ∀ (b a : ℚ), a ∈ l → a ≤ l.foldl max b := by
  induction l with
  | nil => intro b a ha; simp at ha
  | cons x l ih =>
    intro b a ha
    rcases List.mem_cons.mp ha with ha | ha
    · subst ha
      exact le_trans (le_max_right b a) (foldl_max_init_le l (max b a))
    · exact ih (max b x) a ha

lemma foldl_max_eq_or_mem (l : List ℚ) :
    ∀ b : ℚ, l.foldl max b = b ∨ l.foldl max b ∈ l := by
  induction l with
  | nil => intro b; left; simp
  | cons x l ih =>
    intro b
    rcases ih (max b x) with h | h
    · rcases le_total b x with hbx | hxb
      · right
        rw [List.foldl_cons, h, max_eq_right hbx]
        exact List.mem_cons_self x l
      · left
        rw [List.foldl_cons, h, max_eq_left hxb]
    · right
      exact List.mem_cons_of_mem x h

/-! ## Average-meter arithmetic -/

lemma avg_nonneg (m : AverageMeter) (h : 0 ≤ m.sum) : 0 ≤ m.avg := by
  unfold AverageMeter.avg
  by_cases hc : m.count = 0
  · simp [hc]
  · rw [if_neg hc]
    exact div_nonneg h (Nat.cast_nonneg m.count)

lemma update_const_avg (c : ℚ) (k : Nat) :
    ((AverageMeter.mk ((k : ℚ) * c) k).update c).avg = c := by
  unfold AverageMeter.update AverageMeter.avg
  have h1 : k + 1 ≠ 0 := Nat.succ_ne_zero k
  have h2 : ((k : ℚ) + 1) ≠ 0 := by positivity
  simp only [h1, if_false]
  push_cast
  field_simp
  ring

lemma update_zero_avg (k : Nat) :
    ((AverageMeter.mk 0 k).update 0).avg = 0 := by
  unfold AverageMeter.update AverageMeter.avg
  simp

/-! ## Characterization of constant-score and zero-score training runs -/

lemma tvRun_const (mp : Int) (c : ℚ) (sc : Nat → ℚ) (pr : Nat → Mat)
    (hsc : ∀ e, sc e = c) :
    ∀ (es : List Nat) (s : TVState) (k : Nat),
      s.meter = ⟨(k : ℚ) * c, k⟩ → s.best_valid_score = c → 1 ≤ s.patience →
      (tvRun mp sc pr es s).1.best_valid_score = c ∧
        (tvRun mp sc pr es s).1.cached = s.cached := by
  intro es
  induction es with
  | nil =>
    intro s k hm hb _
    simp [tvRun, hb]
  | cons e es ih =>
    intro s k hm hb hp
    have havg : (s.meter.update (sc e)).avg = c := by
      rw [hsc e, hm]; exact update_const_avg c k
    have hlt : ¬ (s.meter.update (sc e)).avg > s.best_valid_score := by
      rw [havg, hb]; exact lt_irrefl c
    have hm' : (tvStep mp s (sc e) (pr e)).meter
        = ⟨((k + 1 : Nat) : ℚ) * c, k + 1⟩ := by
      rw [tvStep_meter, hsc e, hm]
      unfold AverageMeter.update
      simp only [AverageMeter.mk.injEq]
      constructor
      · push_cast; ring
      · trivial
    have hb' : (tvStep mp s (sc e) (pr e)).best_valid_score = c := by
      rw [tvStep_best, hb, havg, max_self]
    have hc' : (tvStep mp s (sc e) (pr e)).cached = s.cached :=
      tvStep_cached_neg mp s (sc e) (pr e) hlt
    have hp' : (tvStep mp s (sc e) (pr e)).patience = s.patience - 1 :=
      tvStep_patience_neg mp s (sc e) (pr e) hlt
    by_cases h0 : (tvStep mp s (sc e) (pr e)).patience = 0
    · rw [tvRun_cons_stop mp sc pr e es s h0]
      exact ⟨hb', hc'⟩
    · rw [tvRun_cons_go mp sc pr e es s h0]
      have hp1 : 1 ≤ (tvStep mp s (sc e) (pr e)).patience := by omega
      have := ih (tvStep mp s (sc e) (pr e)) (k + 1) hm' hb' hp1
      exact ⟨this.1, by rw [this.2, hc']⟩

lemma tvRun_zero (mp : Int) (sc : Nat → ℚ) (pr : Nat → Mat)
    (hsc : ∀ e, sc e = 0) :
    ∀ (es : List Nat) (s : TVState) (k : Nat),
      s.meter = ⟨0, k⟩ → s.best_valid_score = 0 →
      (tvRun mp sc pr es s).1.best_valid_score = 0 ∧
        (tvRun mp sc pr es s).1.cached = s.cached := by
  intro es
  induction es with
  | nil =>
    intro s k hm hb
    simp [tvRun, hb]
  | cons e es ih =>
    intro s k hm hb
    have havg : (s.meter.update (sc e)).avg = 0 := by
      rw [hsc e, hm]; exact update_zero_avg k
    have hlt : ¬ (s.meter.update (sc e)).avg > s.best_valid_score := by
      rw [havg, hb]; exact lt_irrefl 0
    have hm' : (tvStep mp s (sc e) (pr e)).meter = ⟨0, k + 1⟩ := by
      rw [tvStep_meter, hsc e, hm]
      unfold AverageMeter.update
      simp
    have hb' : (tvStep mp s (sc e) (pr e)).best_valid_score = 0 := by
      rw [tvStep_best, hb, havg, max_self]
    have hc' : (tvStep mp s (sc e) (pr e)).cached = s.cached :=
      tvStep_cached_neg mp s (sc e) (pr e) hlt
    by_cases h0 : (tvStep mp s (sc e) (pr e)).patience = 0
    · rw [tvRun_cons_stop mp sc pr e es s h0]
      exact ⟨hb', hc'⟩
    · rw [tvRun_cons_go mp sc pr e es s h0]
      have := ih (tvStep mp s (sc e) (pr e)) (k + 1) hm' hb'
      exact ⟨this.1, by rw [this.2, hc']⟩

/-- A full `train_valid` call on constant positive per-epoch validation
score `c`: the first epoch improves the running average from 0 to `c` and
caches that epoch's test predictions; afterwards the average stays at `c`,
never strictly improving, so patience runs out.  The call returns `c` and
leaves the first epoch's test predictions cached. -/
lemma train_valid_const (st : State) (c : ℚ) (sc : Nat → ℚ) (pr : Nat → Mat)
    (hsc : ∀ e, sc e = c) (hc : 0 < c) (hmp : 1 ≤ st.max_patience)
    (hep : 1 ≤ st.max_epochs) :
    (train_valid st sc pr).1 = c ∧
      (train_valid st sc pr).2.current_round_best_preds = some (pr 0) := by
  obtain ⟨m, hm⟩ : ∃ m, st.max_epochs = m + 1 := by
    rcases Nat.exists_eq_add_of_le hep with ⟨m, h⟩
    exact ⟨m, by omega⟩
  unfold train_valid
  rw [hm, List.range_succ_eq_map]
  have havg : ((train_validInit st).meter.update (sc 0)).avg = c := by
    rw [hsc 0]
    show ((AverageMeter.mk 0 0).update c).avg = c
    have := update_const_avg c 0
    simpa using this
  have himp : ((train_validInit st).meter.update (sc 0)).avg
      > (train_validInit st).best_valid_score := by
    rw [havg]; exact hc
  have hs1m : (tvStep (st.max_patience : Int) (train_validInit st) (sc 0)
      ((fun e => pr e) 0)).meter = ⟨(1 : ℚ) * c, 1⟩ := by
    rw [tvStep_meter, hsc 0]
    show (AverageMeter.mk 0 0).update c = _
    unfold AverageMeter.update
    simp
  have hs1b : (tvStep (st.max_patience : Int) (train_validInit st) (sc 0)
      ((fun e => pr e) 0)).best_valid_score = c := by
    rw [tvStep_best, havg]
    show max (0 : ℚ) c = c
    exact max_eq_right (le_of_lt hc)
  have hs1c : (tvStep (st.max_patience : Int) (train_validInit st) (sc 0)
      ((fun e => pr e) 0)).cached = some (pr 0) :=
    tvStep_cached_pos _ _ _ _ himp
  have hs1p : (tvStep (st.max_patience : Int) (train_validInit st) (sc 0)
      ((fun e => pr e) 0)).patience = (st.max_patience : Int) :=
    tvStep_patience_pos _ _ _ _ himp
  have h0 : ¬ (tvStep (st.max_patience : Int) (train_validInit st) (sc 0)
      ((fun e => pr e) 0)).patience = 0 := by
    rw [hs1p]; omega
  rw [tvRun_cons_go (st.max_patience : Int) sc pr 0
    ((List.range m).map Nat.succ) (train_validInit st) h0]
  have htail := tvRun_const (st.max_patience : Int) c sc pr hsc
    ((List.range m).map Nat.succ)
    (tvStep (st.max_patience : Int) (train_validInit st) (sc 0) (pr 0)) 1
    (by simpa using hs1m) hs1b (by rw [hs1p]; omega)
  refine ⟨htail.1, ?_⟩
  simp only []
  rw [htail.2]
  simpa using hs1c

/-- A full `train_valid` call on all-zero per-epoch validation scores: the
running average stays 0, which never strictly exceeds the initial best of
0, so nothing is cached and patience decrements every epoch.  The call
returns 0 and leaves `current_round_best_preds` untouched. -/
lemma train_valid_zero (st : State) (sc : Nat → ℚ) (pr : Nat → Mat)
    (hsc : ∀ e, sc e = 0) :
    (train_valid st sc pr).1 = 0 ∧
      (train_valid st sc pr).2.current_round_best_preds
        = st.current_round_best_preds := by
  unfold train_valid
  have h := tvRun_zero (st.max_patience : Int) sc pr hsc
    (List.range st.max_epochs) (train_validInit st) 0 rfl rfl
  exact ⟨h.1, h.2⟩

/-! ## Frame lemmas about `train_valid` and `trial` -/

lemma train_valid_state (st : State) (sc : Nat → ℚ) (pr : Nat → Mat) :
    (train_valid st sc pr).2
      = { st with current_round_best_preds :=
            (tvRun (st.max_patience : Int) sc pr (List.range st.max_epochs)
              (train_validInit st)).1.cached } := rfl

lemma train_valid_fst (st : State) (sc : Nat → ℚ) (pr : Nat → Mat) :
    (train_valid st sc pr).1
      = (tvRun (st.max_patience : Int) sc pr (List.range st.max_epochs)
          (train_validInit st)).1.best_valid_score := rfl

/-- Unfolding `trial` on a successful round.  Holds definitionally: the
`self.best_score` read in the update guard is the one of the state
returned by `train_valid`, which equals the caller state's field. -/
lemma trial_success_eq (s : State) (gen : Nat → HP) (sc : Nat → ℚ)
    (pr : Nat → Mat) (n : Nat) :
    trial s gen (.success sc pr) n
      = ⟨.ok (train_valid { s with hyperparameters := trialHP s gen n }
            sc pr).1,
          if (train_valid { s with hyperparameters := trialHP s gen n }
                sc pr).1 > s.best_score
          then { (train_valid { s with hyperparameters := trialHP s gen n }
                  sc pr).2 with best_hp := some (trialHP s gen n) }
          else (train_valid { s with hyperparameters := trialHP s gen n }
                  sc pr).2,
          if 1 < n then
            [⟨n - 1, trialHP s gen n,
              (train_valid { s with hyperparameters := trialHP s gen n }
                sc pr).1⟩]
          else []⟩ := rfl

/-- Unfolding `trial` on a raised `RuntimeError`: the round is caught. -/
lemma trial_raises_caught (s : State) (gen : Nat → HP) (e : PyExc)
    (n : Nat) (h : e.cls = ExcClass.runtimeError) :
    trial s gen (.raises e) n
      = ⟨.ok 0, { s with hyperparameters := trialHP s gen n },
          if 1 < n then [⟨n - 1, trialHP s gen n, 0⟩] else []⟩ := by
  simp [trial, h]

/-- Unfolding `trial` on an exception of any other class: it propagates. -/
lemma trial_raises_uncaught (s : State) (gen : Nat → HP) (e : PyExc)
    (n : Nat) (h : ¬ e.cls = ExcClass.runtimeError) :
    trial s gen (.raises e) n
      = ⟨.error e, { s with hyperparameters := trialHP s gen n }, []⟩ := by
  simp [trial, h]

lemma trial_success_result (s : State) (gen : Nat → HP) (sc : Nat → ℚ)
    (pr : Nat → Mat) (n : Nat) :
    (trial s gen (.success sc pr) n).result
      = .ok (train_valid { s with hyperparameters := trialHP s gen n }
          sc pr).1 := by
  rw [trial_success_eq]

lemma trial_success_current (s : State) (gen : Nat → HP) (sc : Nat → ℚ)
    (pr : Nat → Mat) (n : Nat) :
    (trial s gen (.success sc pr) n).state.current_round_best_preds
      = (train_valid { s with hyperparameters := trialHP s gen n }
          sc pr).2.current_round_best_preds := by
  rw [trial_success_eq]
  split <;> rfl

lemma trial_success_best_hp (s : State) (gen : Nat → HP) (sc : Nat → ℚ)
    (pr : Nat → Mat) (n : Nat) :
    (trial s gen (.success sc pr) n).state.best_hp
      = if (train_valid { s with hyperparameters := trialHP s gen n }
            sc pr).1 > s.best_score
        then some (trialHP s gen n) else s.best_hp := by
  rw [trial_success_eq]
  split
  · rfl
  · rfl

lemma trial_success_calls (s : State) (gen : Nat → HP) (sc : Nat → ℚ)
    (pr : Nat → Mat) (n : Nat) :
    (trial s gen (.success sc pr) n).tunerCalls
      = if 1 < n then
          [⟨n - 1, trialHP s gen n,
            (train_valid { s with hyperparameters := trialHP s gen n }
              sc pr).1⟩]
        else [] := by
  rw [trial_success_eq]

lemma trial_state_frame (s : State) (gen : Nat → HP) (o : RoundOutcome)
    (n : Nat) :
    (trial s gen o n).state.best_score = s.best_score
    ∧ (trial s gen o n).state.best_preds = s.best_preds
    ∧ (trial s gen o n).state.max_patience = s.max_patience
    ∧ (trial s gen o n).state.max_epochs = s.max_epochs
    ∧ (trial s gen o n).state.hist_score = s.hist_score
    ∧ (trial s gen o n).state.best_valid_score = s.best_valid_score := by
  cases o with
  | success sc pr =>
    rw [trial_success_eq]
    split <;> exact ⟨rfl, rfl, rfl, rfl, rfl, rfl⟩
  | raises e =>
    by_cases h : e.cls = ExcClass.runtimeError
    · rw [trial_raises_caught s gen e n h]
      exact ⟨rfl, rfl, rfl, rfl, rfl, rfl⟩
    · rw [trial_raises_uncaught s gen e n h]
      exact ⟨rfl, rfl, rfl, rfl, rfl, rfl⟩

lemma trial_hyperparameters (s : State) (gen : Nat → HP) (o : RoundOutcome)
    (n : Nat) :
    (trial s gen o n).state.hyperparameters = trialHP s gen n := by
  cases o with
  | success sc pr =>
    rw [trial_success_eq]
    split <;> rfl
  | raises e =>
    by_cases h : e.cls = ExcClass.runtimeError
    · rw [trial_raises_caught s gen e n h]
    · rw [trial_raises_uncaught s gen e n h]

lemma trial_raises_best_hp (s : State) (gen : Nat → HP) (e : PyExc)
    (n : Nat) :
    (trial s gen (.raises e) n).state.best_hp = s.best_hp := by
  by_cases h : e.cls = ExcClass.runtimeError
  · rw [trial_raises_caught s gen e n h]
  · rw [trial_raises_uncaught s gen e n h]

lemma runRounds_best_score (rounds : List RoundInput) :
    ∀ s : State, (runRounds s rounds).best_score = s.best_score := by
  induction rounds with
  | nil => intro s; rfl
  | cons r rs ih =>
    intro s
    rw [show runRounds s (r :: rs)
        = runRounds (trial s r.gen r.outcome r.num).state rs from rfl]
    rw [ih (trial s r.gen r.outcome r.num).state]
    exact (trial_state_frame s r.gen r.outcome r.num).1

/-! ## Concrete fixtures for witnesses and counterexamples -/

/-- A representative constructor `info`: two layers, learning rate 0.005,
no edge dropping, hidden exponent 5, no linear projections, two classes. -/
def infoA : Info :=
  { num_layers := 2
    lr := 1/200
    dropedge_rate := none
    dropout_rate := 1/2
    init_hidden_size := 5
    use_linear := false
    n_class := 2 }

/-- The initial configuration for `infoA`. -/
def hpA : HP := initHP infoA

/-- A distinct configuration, as a tuner would propose. -/
def hpB : HP := { hpA with num_layers := 3 }

/-- A tuner stub whose `generate_parameters` always proposes `hpB`. -/
def genB : Nat → HP := fun _ => hpB

/-- A single-layer configuration without linear projections. -/
def hpC : HP := { hpA with num_layers := 1 }

/-- A single-layer configuration with linear projections. -/
def hpLin : HP := { hpA with use_linear := true, num_layers := 1 }

/-- A first orchestrated round: the engine reports a constant validation
F1 of 4/5 every epoch and test-mask softmax probabilities
`[[3/4, 1/4]]`. -/
def round1 : TrialResult :=
  trial (initState infoA) genB
    (.success (fun _ => 4/5) (fun _ => [[3/4, 1/4]])) 1

/-- A second orchestrated round on top of `round1`: constant validation
F1 of 1/2 — strictly worse than round 1's 4/5. -/
def round2 : TrialResult :=
  trial round1.state genB
    (.success (fun _ => 1/2) (fun _ => [[1, 0]])) 2

/-! ## Membership helpers for `registeredParams` -/

lemma mem_registered_of_input_lin (m : ModelFields) (i : Nat)
    (h : m.input_lin = some i) : i ∈ registeredParams m := by
  simp [registeredParams, h]

lemma mem_registered_of_conv1 (m : ModelFields) (i : Nat)
    (h : m.conv1 = some i) : i ∈ registeredParams m := by
  simp [registeredParams, h]

lemma mem_registered_of_convs (m : ModelFields) (l : List Nat) (i : Nat)
    (h : m.convs = some l) (hi : i ∈ l) : i ∈ registeredParams m := by
  simp [registeredParams, h]
  tauto

lemma mem_registered_of_convs_getD (m : ModelFields) (i : Nat)
    (hi : i ∈ m.convs.getD []) : i ∈ registeredParams m :=
  List.mem_append_left _ (List.mem_append_left _ (List.mem_append_right _ hi))

lemma mem_registered_of_conv2 (m : ModelFields) (i : Nat)
    (h : m.conv2 = some i) : i ∈ registeredParams m := by
  simp [registeredParams, h]

lemma mem_registered_of_output_lin (m : ModelFields) (i : Nat)
    (h : m.output_lin = some i) : i ∈ registeredParams m := by
  simp [registeredParams, h]

/-! ## Claim C10 -/

/-- C10: `best_score` is set to 0 in the constructor and never written
afterwards: any sequence of `trial` rounds starting from the constructor
state leaves it 0, one `trial` call preserves it, and `train_valid`
preserves it (while `init_model` and `forward` act on the layer/feature
types only and never touch the object record, and `predict` is
read-only).  Consequently the guard `val_score > self.best_score` is
equivalent to `val_score > 0` in every round, independently of the scores
achieved in previous rounds. -/
theorem c10_theorem (info : Info) (rounds : List RoundInput) (v : ℚ) :
    (runRounds (initState info) rounds).best_score = 0
    ∧ (v > (runRounds (initState info) rounds).best_score ↔ v > 0)
    ∧ (∀ (s : State) (gen : Nat → HP) (o : RoundOutcome) (n : Nat),
        (trial s gen o n).state.best_score = s.best_score)
    ∧ (∀ (st : State) (sc : Nat → ℚ) (pr : Nat → Mat),
        (train_valid st sc pr).2.best_score = st.best_score) := by
  have h0 : (runRounds (initState info) rounds).best_score = 0 := by
    rw [runRounds_best_score]; rfl
  exact ⟨h0, by rw [h0], fun s gen o n => (trial_state_frame s gen o n).1,
    fun st sc pr => rfl⟩

/-! ## Claim C8 -/

/-- C8: in `trial(data, round_num)`, round 1 uses the fixed initial
configuration built by the constructor, unchanged; round `n ≥ 2` uses
exactly the configuration returned by the tuner's `generate_parameters`
at index `n - 1`; and the configuration stored on the object for the
round (read by `init_model` and `forward`) is exactly that choice. -/
theorem c8_theorem (info : Info) (s : State) (gen : Nat → HP)
    (o : RoundOutcome) (n : Nat) :
    trialHP s gen 1 = s.hyperparameters
    ∧ (initState info).hyperparameters = initHP info
    ∧ (2 ≤ n → trialHP s gen n = gen (n - 1))
    ∧ (trial s gen o n).state.hyperparameters = trialHP s gen n := by
  exact ⟨by simp [trialHP], rfl, fun h => by simp [trialHP, h],
    trial_hyperparameters s gen o n⟩

/-- Witness for C8 at a concrete state, tuner and round number. -/
theorem c8_witness :
    trialHP (initState infoA) genB 1 = (initState infoA).hyperparameters
    ∧ (initState infoA).hyperparameters = initHP infoA
    ∧ (2 ≤ 2 → trialHP (initState infoA) genB 2 = genB (2 - 1))
    ∧ (trial (initState infoA) genB
        (.raises ⟨ExcClass.runtimeError, true⟩) 2).state.hyperparameters
        = trialHP (initState infoA) genB 2 :=
  c8_theorem infoA (initState infoA) genB
    (.raises ⟨ExcClass.runtimeError, true⟩) 2

/-! ## Claim C3 -/

/-- C3: if the round's model construction or training raises an
out-of-memory error (a `RuntimeError` with the OOM flag), `trial` returns
0 immediately — the embedding of `trial` is single-attempt, mirroring the
source where the `except` block ends in `return`, so no retry with a
reduced size happens — the tuner receives score 0 at index `n - 1`
exactly when `n > 1` (and nothing when `n = 1`), and the best-result
record (`best_score`, `best_hp`, `best_preds`) is unchanged. -/
theorem c3_theorem (s : State) (gen : Nat → HP) (e : PyExc) (n : Nat)
    (hcls : e.cls = ExcClass.runtimeError) (hoom : e.isOOM = true) :
    (trial s gen (.raises e) n).result = .ok 0
    ∧ (1 < n → (trial s gen (.raises e) n).tunerCalls
        = [⟨n - 1, trialHP s gen n, 0⟩])
    ∧ (n = 1 → (trial s gen (.raises e) n).tunerCalls = [])
    ∧ (trial s gen (.raises e) n).state.best_score = s.best_score
    ∧ (trial s gen (.raises e) n).state.best_hp = s.best_hp
    ∧ (trial s gen (.raises e) n).state.best_preds = s.best_preds := by
  rw [trial_raises_caught s gen e n hcls]
  exact ⟨rfl, fun h => by simp [h], fun h => by simp [h], rfl, rfl, rfl⟩

/-- Witness for C3: a concrete out-of-memory failure in round 2. -/
theorem c3_witness :
    (trial (initState infoA) genB
        (.raises ⟨ExcClass.runtimeError, true⟩) 2).result = .ok 0
    ∧ (1 < 2 → (trial (initState infoA) genB
        (.raises ⟨ExcClass.runtimeError, true⟩) 2).tunerCalls
        = [⟨2 - 1, trialHP (initState infoA) genB 2, 0⟩])
    ∧ (2 = 1 → (trial (initState infoA) genB
        (.raises ⟨ExcClass.runtimeError, true⟩) 2).tunerCalls = [])
    ∧ (trial (initState infoA) genB
        (.raises ⟨ExcClass.runtimeError, true⟩) 2).state.best_score
        = (initState infoA).best_score
    ∧ (trial (initState infoA) genB
        (.raises ⟨ExcClass.runtimeError, true⟩) 2).state.best_hp
        = (initState infoA).best_hp
    ∧ (trial (initState infoA) genB
        (.raises ⟨ExcClass.runtimeError, true⟩) 2).state.best_preds
        = (initState infoA).best_preds :=
  c3_theorem (initState infoA) genB ⟨ExcClass.runtimeError, true⟩ 2 rfl rfl

/-! ## Claim C4 -/

/-- C4 counterexample: the `except RuntimeError` clause keys on the
exception class only.  A `RuntimeError` that is NOT an out-of-memory
condition — in the source framework a tensor shape mismatch inside a
convolution raises exactly `RuntimeError` — is caught at the round
boundary and converted to score 0 instead of propagating.  So
out-of-memory is not the only failure kind caught, refuting the claim
that a data shape mismatch propagates uncaught. -/
theorem c4_counterexample :
    (trial (initState infoA) genB
        (.raises ⟨ExcClass.runtimeError, false⟩) 2).result = .ok 0
    ∧ (⟨ExcClass.runtimeError, false⟩ : PyExc).isOOM = false := by
  constructor
  · rw [trial_raises_caught (initState infoA) genB
      ⟨ExcClass.runtimeError, false⟩ 2 rfl]
  · rfl

/-- C4 (amended): the round boundary of `trial` catches exactly the
exceptions of class `RuntimeError` — out-of-memory or not — converting
them to score 0; an exception of any other class propagates uncaught out
of `trial`. -/
theorem c4_theorem (s : State) (gen : Nat → HP) (e : PyExc) (n : Nat) :
    ((trial s gen (.raises e) n).result = .ok 0
      ↔ e.cls = ExcClass.runtimeError)
    ∧ (¬ e.cls = ExcClass.runtimeError →
        (trial s gen (.raises e) n).result = .error e) := by
  by_cases h : e.cls = ExcClass.runtimeError
  · rw [trial_raises_caught s gen e n h]
    exact ⟨by simp [h], fun h' => absurd h h'⟩
  · rw [trial_raises_uncaught s gen e n h]
    exact ⟨by simp [h], fun _ => rfl⟩

/-- Witness for C4 (amended): a concrete `TypeError` in round 3
propagates. -/
theorem c4_witness :
    ((trial (initState infoA) genB
        (.raises ⟨ExcClass.typeError, false⟩) 3).result = .ok 0
      ↔ (⟨ExcClass.typeError, false⟩ : PyExc).cls = ExcClass.runtimeError)
    ∧ (¬ (⟨ExcClass.typeError, false⟩ : PyExc).cls = ExcClass.runtimeError →
        (trial (initState infoA) genB
          (.raises ⟨ExcClass.typeError, false⟩) 3).result
          = .error ⟨ExcClass.typeError, false⟩) :=
  c4_theorem (initState infoA) genB ⟨ExcClass.typeError, false⟩ 3

/-! ## Claim C7 -/

/-- C7: for every configuration with `num_layers == 1` and
`use_linear == False`, the forward pass returns immediately after exactly
one graph convolution (`conv1`) followed by ReLU: the produced feature
pipeline contains no feature dropout, no layer of the `convs` list, and
no second convolution or linear projection, whatever the current length
of `convs` is. -/
theorem c7_theorem (hp : HP) (nConvs : Nat)
    (hlin : hp.use_linear = false) (hnl : hp.num_layers = 1) :
    forwardExpr hp nConvs = .relu (.conv1 (edgeExpr hp) .input) := by
  unfold forwardExpr
  simp [hlin, hnl]

/-- Witness for C7: the concrete single-layer no-linear configuration. -/
theorem c7_witness :
    hpC.use_linear = false ∧ hpC.num_layers = 1
    ∧ forwardExpr hpC 5 = .relu (.conv1 (edgeExpr hpC) .input) :=
  ⟨rfl, rfl, c7_theorem hpC 5 rfl rfl⟩

/-! ## Claim C9 -/

/-- C9 counterexample: build the model once with `use_linear = True`
(registering `input_lin` with parameter id 0, one `convs` entry with
id 1, `output_lin` with id 2), then rebuild with `use_linear = False`
and `num_layers = 1`.  The second `init_model` assigns only `conv1`
(fresh id 3); the first round's `input_lin` keeps id 0, which is still
registered in the module and is included in the freshly allocated
optimizer — refuting the claim that no parameter tensor created by an
earlier round's `init_model` remains registered or enters the new
optimizer. -/
theorem c9_counterexample :
    (init_model ({} : ModelFields) hpLin).input_lin = some 0
    ∧ (init_model ({} : ModelFields) hpLin).optimizerParams = [0, 1, 2]
    ∧ (init_model (init_model ({} : ModelFields) hpLin) hpC).conv1 = some 3
    ∧ (init_model (init_model ({} : ModelFields) hpLin) hpC).input_lin
        = some 0
    ∧ 0 ∈ registeredParams (init_model (init_model ({} : ModelFields) hpLin)
        hpC)
    ∧ 0 ∈ (init_model (init_model ({} : ModelFields) hpLin)
        hpC).optimizerParams := by
  refine ⟨?_, ?_, ?_, ?_, ?_, ?_⟩ <;>
    simp [init_model, registeredParams, hpLin, hpC, hpA, initHP, infoA,
      List.range_succ]

/-- C9 (amended): every call to `init_model` freshly instantiates the
layers selected by the current configuration branch — all parameter ids
it introduces are new allocations, at or above the current allocation
counter, never reused from an earlier call — and it binds the freshly
allocated optimizer to exactly the parameters currently registered in the
module.  However, layer attributes assigned by an earlier call that the
current branch does not reassign (for instance `convs`, `conv2`,
`input_lin` and `output_lin` when the new configuration selects the
no-linear single-layer branch) are retained: their stale parameters stay
registered and are included in the new optimizer. -/
theorem c9_theorem (m : ModelFields) (hp : HP)
    (hinv : ∀ i ∈ registeredParams m, i < m.nextId) :
    (init_model m hp).optimizerParams = registeredParams (init_model m hp)
    ∧ m.nextId ≤ (init_model m hp).nextId
    ∧ (∀ i ∈ registeredParams (init_model m hp),
        i < (init_model m hp).nextId)
    ∧ (∀ i ∈ registeredParams (init_model m hp),
        i ∈ registeredParams m ∨ m.nextId ≤ i)
    ∧ (hp.use_linear = false → hp.num_layers = 1 →
        (init_model m hp).conv1 = some m.nextId
        ∧ (init_model m hp).convs = m.convs
        ∧ (init_model m hp).conv2 = m.conv2
        ∧ (init_model m hp).input_lin = m.input_lin
        ∧ (init_model m hp).output_lin = m.output_lin) := by
  rcases hbl : hp.use_linear with _ | _
  · rcases hnl : decide (hp.num_layers = 1) with _ | _
    · -- use_linear = false, num_layers ≠ 1: the conv1/convs/conv2 branch
      have hnl' : ¬ hp.num_layers = 1 := of_decide_eq_false hnl
      refine ⟨by simp [init_model, hbl, hnl', registeredParams], ?_, ?_, ?_,
        fun hlin h1 => absurd h1 hnl'⟩
      · simp [init_model, hbl, hnl'] <;> omega
      · intro i hi
        simp [init_model, hbl, hnl', registeredParams] at hi ⊢
        rcases hi with hi | hi | ⟨j, hj, hji⟩ | hi | hi
        · have := hinv i (mem_registered_of_input_lin m i hi)
          omega
        · omega
        · omega
        · omega
        · have := hinv i (mem_registered_of_output_lin m i hi)
          omega
      · intro i hi
        simp [init_model, hbl, hnl', registeredParams] at hi
        rcases hi with hi | hi | ⟨j, hj, hji⟩ | hi | hi
        · exact Or.inl (mem_registered_of_input_lin m i hi)
        · right; omega
        · right; omega
        · right; omega
        · exact Or.inl (mem_registered_of_output_lin m i hi)
    · -- use_linear = false, num_layers = 1: only conv1 is reassigned
      have hnl' : hp.num_layers = 1 := of_decide_eq_true hnl
      refine ⟨by simp [init_model, hbl, hnl', registeredParams], ?_, ?_, ?_,
        fun _ _ => ?_⟩
      · simp [init_model, hbl, hnl'] <;> omega
      · intro i hi
        simp [init_model, hbl, hnl', registeredParams] at hi ⊢
        rcases hi with hi | hi | hi | hi | hi
        · have := hinv i (mem_registered_of_input_lin m i hi)
          omega
        · omega
        · have := hinv i (mem_registered_of_convs_getD m i hi)
          omega
        · have := hinv i (mem_registered_of_conv2 m i hi)
          omega
        · have := hinv i (mem_registered_of_output_lin m i hi)
          omega
      · intro i hi
        simp [init_model, hbl, hnl', registeredParams] at hi
        rcases hi with hi | hi | hi | hi | hi
        · exact Or.inl (mem_registered_of_input_lin m i hi)
        · right; omega
        · exact Or.inl (mem_registered_of_convs_getD m i hi)
        · exact Or.inl (mem_registered_of_conv2 m i hi)
        · exact Or.inl (mem_registered_of_output_lin m i hi)
      · exact ⟨by simp [init_model, hbl, hnl'],
          by simp [init_model, hbl, hnl'],
          by simp [init_model, hbl, hnl'],
          by simp [init_model, hbl, hnl'],
          by simp [init_model, hbl, hnl']⟩
  · -- use_linear = true: the input_lin/convs/output_lin branch
    refine ⟨by simp [init_model, hbl, registeredParams], ?_, ?_, ?_,
      fun hlin _ => by simp at hlin⟩
    · simp [init_model, hbl] <;> omega
    · intro i hi
      simp [init_model, hbl, registeredParams] at hi ⊢
      rcases hi with hi | hi | ⟨j, hj, hji⟩ | hi | hi
      · omega
      · have := hinv i (mem_registered_of_conv1 m i hi)
        omega
      · omega
      · have := hinv i (mem_registered_of_conv2 m i hi)
        omega
      · omega
    · intro i hi
      simp [init_model, hbl, registeredParams] at hi
      rcases hi with hi | hi | ⟨j, hj, hji⟩ | hi | hi
      · right; omega
      · exact Or.inl (mem_registered_of_conv1 m i hi)
      · right; omega
      · exact Or.inl (mem_registered_of_conv2 m i hi)
      · right; omega

/-- Witness for C9 (amended): a fresh module built with the three-layer
no-linear configuration. -/
theorem c9_witness :
    (init_model ({} : ModelFields) hpB).optimizerParams
      = registeredParams (init_model ({} : ModelFields) hpB)
    ∧ ({} : ModelFields).nextId ≤ (init_model ({} : ModelFields) hpB).nextId
    ∧ (∀ i ∈ registeredParams (init_model ({} : ModelFields) hpB),
        i < (init_model ({} : ModelFields) hpB).nextId)
    ∧ (∀ i ∈ registeredParams (init_model ({} : ModelFields) hpB),
        i ∈ registeredParams ({} : ModelFields)
          ∨ ({} : ModelFields).nextId ≤ i)
    ∧ (hpB.use_linear = false → hpB.num_layers = 1 →
        (init_model ({} : ModelFields) hpB).conv1
          = some ({} : ModelFields).nextId
        ∧ (init_model ({} : ModelFields) hpB).convs
          = ({} : ModelFields).convs
        ∧ (init_model ({} : ModelFields) hpB).conv2
          = ({} : ModelFields).conv2
        ∧ (init_model ({} : ModelFields) hpB).input_lin
          = ({} : ModelFields).input_lin
        ∧ (init_model ({} : ModelFields) hpB).output_lin
          = ({} : ModelFields).output_lin) :=
  c9_theorem ({} : ModelFields) hpB
    (fun i hi => absurd hi (by simp [registeredParams]))

/-! ## Claims C5 and C6 -/

lemma train_validTrace_def (st : State) (sc : Nat → ℚ) (pr : Nat → Mat) :
    train_validTrace st sc pr
      = (tvRun (st.max_patience : Int) sc pr (List.range st.max_epochs)
          (train_validInit st)).2 := rfl

/-- C5: in `train_valid`, each epoch folds the new validation F1 score
into the cumulative mean (`AverageMeter`); patience resets exactly when
this cumulative mean strictly exceeds the previous best mean (given the
loop invariant that patience never exceeds its maximum); on each such
improvement that epoch's test-mask predictions are cached, and otherwise
the cache is untouched; and the returned value is the maximum of the
cumulative mean over all executed epochs (for nonnegative scores, as F1
scores are). -/
theorem c5_theorem (mp : Int) (s : TVState) (v : ℚ) (p : Mat)
    (st : State) (sc : Nat → ℚ) (pr : Nat → Mat)
    (hpat : s.patience ≤ mp) (hnn : ∀ e, 0 ≤ sc e) :
    (tvStep mp s v p).meter = s.meter.update v
    ∧ (s.meter.update v).avg = (s.meter.sum + v) / ((s.meter.count : ℚ) + 1)
    ∧ ((tvStep mp s v p).patience = mp
        ↔ (s.meter.update v).avg > s.best_valid_score)
    ∧ ((s.meter.update v).avg > s.best_valid_score →
        (tvStep mp s v p).cached = some p)
    ∧ (¬ (s.meter.update v).avg > s.best_valid_score →
        (tvStep mp s v p).cached = s.cached)
    ∧ (train_valid st sc pr).1
        = ((train_validTrace st sc pr).map fun t => t.meter.avg).foldl max 0
    ∧ (∀ t ∈ train_validTrace st sc pr,
        t.meter.avg ≤ (train_valid st sc pr).1)
    ∧ (train_validTrace st sc pr ≠ [] →
        (train_valid st sc pr).1
          ∈ (train_validTrace st sc pr).map fun t => t.meter.avg) := by
  have ha2 : (s.meter.update v).avg
      = (s.meter.sum + v) / ((s.meter.count : ℚ) + 1) := by
    unfold AverageMeter.update AverageMeter.avg
    rw [if_neg (Nat.succ_ne_zero s.meter.count)]
    push_cast
    ring
  have hd1 : (train_valid st sc pr).1
      = ((train_validTrace st sc pr).map fun t => t.meter.avg).foldl
          max 0 := by
    rw [train_valid_fst, train_validTrace_def]
    rw [tvRun_best_foldl (st.max_patience : Int) sc pr
      (List.range st.max_epochs) (train_validInit st)]
    rfl
  refine ⟨tvStep_meter mp s v p, ha2, ?_,
    tvStep_cached_pos mp s v p, tvStep_cached_neg mp s v p, hd1, ?_, ?_⟩
  · constructor
    · intro h
      by_contra h'
      have hd := tvStep_patience_neg mp s v p h'
      rw [hd] at h
      omega
    · exact tvStep_patience_pos mp s v p
  · intro t ht
    rw [hd1]
    exact mem_le_foldl_max _ 0 _ (List.mem_map_of_mem _ ht)
  · intro hne
    have hnn2 : ∀ a ∈ (train_validTrace st sc pr).map
        (fun t => t.meter.avg), 0 ≤ a := by
      intro a ha
      rcases List.mem_map.mp ha with ⟨t, ht, rfl⟩
      refine avg_nonneg _ ?_
      refine tvRun_trace_sum_nonneg (st.max_patience : Int) sc pr hnn
        (List.range st.max_epochs) (train_validInit st) (le_refl 0) t ?_
      rw [train_validTrace_def] at ht
      exact ht
    rcases foldl_max_eq_or_mem
        ((train_validTrace st sc pr).map fun t => t.meter.avg) 0 with
      h0 | hmem
    · have hmapne : (train_validTrace st sc pr).map
          (fun t => t.meter.avg) ≠ [] := by
        intro h
        exact hne (List.map_eq_nil.mp h)
      rcases List.exists_mem_of_ne_nil _ hmapne with ⟨a, ha⟩
      have h1 : a ≤ 0 := by
        have hle := mem_le_foldl_max
          ((train_validTrace st sc pr).map fun t => t.meter.avg) 0 a ha
        rw [h0] at hle
        exact hle
      have ha0 : a = 0 := le_antisymm h1 (hnn2 a ha)
      rw [hd1, h0, ← ha0]
      exact ha
    · rw [hd1]
      exact hmem

/-- Witness for C5 at a concrete loop state and concrete (all-zero)
score stream. -/
theorem c5_witness :
    (tvStep 100 (train_validInit (initState infoA)) 1 [[1]]).meter
      = (train_validInit (initState infoA)).meter.update 1
    ∧ ((train_validInit (initState infoA)).meter.update 1).avg
        = ((train_validInit (initState infoA)).meter.sum + 1)
            / (((train_validInit (initState infoA)).meter.count : ℚ) + 1)
    ∧ ((tvStep 100 (train_validInit (initState infoA)) 1 [[1]]).patience
          = 100
        ↔ ((train_validInit (initState infoA)).meter.update 1).avg
            > (train_validInit (initState infoA)).best_valid_score)
    ∧ (((train_validInit (initState infoA)).meter.update 1).avg
          > (train_validInit (initState infoA)).best_valid_score →
        (tvStep 100 (train_validInit (initState infoA)) 1 [[1]]).cached
          = some [[1]])
    ∧ (¬ ((train_validInit (initState infoA)).meter.update 1).avg
          > (train_validInit (initState infoA)).best_valid_score →
        (tvStep 100 (train_validInit (initState infoA)) 1 [[1]]).cached
          = (train_validInit (initState infoA)).cached)
    ∧ (train_valid (initState infoA) (fun _ => 0) (fun _ => [])).1
        = ((train_validTrace (initState infoA) (fun _ => 0)
            (fun _ => [])).map fun t => t.meter.avg).foldl max 0
    ∧ (∀ t ∈ train_validTrace (initState infoA) (fun _ => 0) (fun _ => []),
        t.meter.avg
          ≤ (train_valid (initState infoA) (fun _ => 0) (fun _ => [])).1)
    ∧ (train_validTrace (initState infoA) (fun _ => 0) (fun _ => []) ≠ [] →
        (train_valid (initState infoA) (fun _ => 0) (fun _ => [])).1
          ∈ (train_validTrace (initState infoA) (fun _ => 0)
              (fun _ => [])).map fun t => t.meter.avg) :=
  c5_theorem 100 (train_validInit (initState infoA)) 1 [[1]]
    (initState infoA) (fun _ => 0) (fun _ => [])
    (by norm_num [train_validInit, initState]) (fun _ => le_refl 0)

/-- C6: with the constructor's bounds (`max_patience = 100`,
`max_epochs = 1600`), the patience counter starts at 100, resets to 100
exactly on a new best moving-average score and decrements by one
otherwise; it is never negative (and never above 100) at any executed
epoch; the epoch loop executes at most 1600 iterations; if it stops
before the epoch budget then the last executed epoch drove patience to 0,
and no earlier executed epoch did (the loop stops at the first such
epoch). -/
theorem c6_theorem (st : State) (sc : Nat → ℚ) (pr : Nat → Mat)
    (h100 : st.max_patience = 100) (h1600 : st.max_epochs = 1600) :
    (train_validInit st).patience = 100
    ∧ (∀ (s : TVState) (v : ℚ) (p : Mat),
        ((s.meter.update v).avg > s.best_valid_score →
          (tvStep (st.max_patience : Int) s v p).patience = 100)
        ∧ (¬ (s.meter.update v).avg > s.best_valid_score →
          (tvStep (st.max_patience : Int) s v p).patience
            = s.patience - 1))
    ∧ (train_validTrace st sc pr).length ≤ 1600
    ∧ (∀ t ∈ train_validTrace st sc pr, 0 ≤ t.patience ∧ t.patience ≤ 100)
    ∧ ((train_validTrace st sc pr).length < 1600 →
        ∀ t, (train_validTrace st sc pr).getLast? = some t →
          t.patience = 0)
    ∧ (∀ k t, k + 1 < (train_validTrace st sc pr).length →
        (train_validTrace st sc pr)[k]? = some t → t.patience ≠ 0) := by
  have hcast : ((st.max_patience : Int)) = 100 := by rw [h100]; norm_num
  refine ⟨hcast, ?_, ?_, ?_, ?_, ?_⟩
  · intro s v p
    exact ⟨fun h => by rw [tvStep_patience_pos _ _ _ _ h]; exact hcast,
      fun h => tvStep_patience_neg _ _ _ _ h⟩
  · rw [train_validTrace_def]
    have hl := tvRun_length_le (st.max_patience : Int) sc pr
      (List.range st.max_epochs) (train_validInit st)
    simpa [h1600] using hl
  · intro t ht
    rw [train_validTrace_def] at ht
    have hb := tvRun_patience_bounds (st.max_patience : Int) sc pr
      (by rw [hcast]; norm_num) (List.range st.max_epochs)
      (train_validInit st)
      (by show (0 : Int) < (st.max_patience : Int); rw [hcast]; norm_num)
      (le_refl _) t ht
    exact ⟨hb.1, by rw [← hcast]; exact hb.2⟩
  · intro hlen t hlast
    rw [train_validTrace_def] at hlen hlast
    exact tvRun_early_stop (st.max_patience : Int) sc pr
      (List.range st.max_epochs) (train_validInit st)
      (by simpa [h1600] using hlen) t hlast
  · intro k t hk ht
    rw [train_validTrace_def] at hk ht
    exact tvRun_not_last_patience (st.max_patience : Int) sc pr
      (List.range st.max_epochs) (train_validInit st) k hk t ht

/-- Witness for C6 at the constructor state and a concrete (all-zero)
score stream. -/
theorem c6_witness :
    (train_validInit (initState infoA)).patience = 100
    ∧ (∀ (s : TVState) (v : ℚ) (p : Mat),
        ((s.meter.update v).avg > s.best_valid_score →
          (tvStep ((initState infoA).max_patience : Int) s v p).patience
            = 100)
        ∧ (¬ (s.meter.update v).avg > s.best_valid_score →
          (tvStep ((initState infoA).max_patience : Int) s v p).patience
            = s.patience - 1))
    ∧ (train_validTrace (initState infoA) (fun _ => 0)
        (fun _ => [])).length ≤ 1600
    ∧ (∀ t ∈ train_validTrace (initState infoA) (fun _ => 0) (fun _ => []),
        0 ≤ t.patience ∧ t.patience ≤ 100)
    ∧ ((train_validTrace (initState infoA) (fun _ => 0)
          (fun _ => [])).length < 1600 →
        ∀ t, (train_validTrace (initState infoA) (fun _ => 0)
            (fun _ => [])).getLast? = some t → t.patience = 0)
    ∧ (∀ k t, k + 1 < (train_validTrace (initState infoA) (fun _ => 0)
          (fun _ => [])).length →
        (train_validTrace (initState infoA) (fun _ => 0)
          (fun _ => []))[k]? = some t → t.patience ≠ 0) :=
  c6_theorem (initState infoA) (fun _ => 0) (fun _ => []) rfl rfl

/-! ## Claim C1 -/

set_option maxRecDepth 8000 in
/-- C1 counterexample: round 1 achieves a constant validation score of
4/5 — a new best over the (empty) prior rounds — yet `best_score` stays 0
and `best_preds` stays `None`: the record fields the claim names are not
updated.  Round 2 achieves 1/2, which does NOT exceed the best validation
score 4/5 of the prior rounds, yet `best_hp` is overwritten with round
2's configuration (because the guard compares against the never-updated
`best_score = 0`).  Both directions of the claimed "updated if and only
if" fail on this concrete two-round run. -/
theorem c1_counterexample :
    round1.result = .ok (4/5)
    ∧ round1.state.best_score = 0
    ∧ round1.state.best_preds = none
    ∧ round2.result = .ok (1/2)
    ∧ (1/2 : ℚ) < 4/5
    ∧ round2.state.best_hp = some hpB
    ∧ hpB ≠ initHP infoA
    ∧ round1.state.best_hp = some (initHP infoA) := by
  have hv1 := train_valid_const
    { initState infoA with
        hyperparameters := trialHP (initState infoA) genB 1 }
    (4/5) (fun _ => 4/5) (fun _ => [[3/4, 1/4]]) (fun _ => rfl)
    (by norm_num) (by norm_num [initState]) (by norm_num [initState])
  have hr1res : round1.result = .ok (4/5) := by
    rw [round1, trial_success_result, hv1.1]
  have hframe1 := trial_state_frame (initState infoA) genB
    (.success (fun _ => 4/5) (fun _ => [[3/4, 1/4]])) 1
  have hbs1 : round1.state.best_score = 0 := by
    rw [round1]
    exact hframe1.1
  have hmp1 : round1.state.max_patience = 100 := by
    rw [round1]
    exact hframe1.2.2.1
  have hme1 : round1.state.max_epochs = 1600 := by
    rw [round1]
    exact hframe1.2.2.2.1
  have hv2 := train_valid_const
    { round1.state with hyperparameters := trialHP round1.state genB 2 }
    (1/2) (fun _ => 1/2) (fun _ => [[1, 0]]) (fun _ => rfl)
    (by norm_num) (by show 1 ≤ round1.state.max_patience; omega)
    (by show 1 ≤ round1.state.max_epochs; omega)
  have hr2res : round2.result = .ok (1/2) := by
    rw [round2, trial_success_result, hv2.1]
  have hhp2 : trialHP round1.state genB 2 = hpB := by
    simp [trialHP, genB]
  have hbh2 : round2.state.best_hp = some hpB := by
    rw [round2, trial_success_best_hp, hv2.1, if_pos (by rw [hbs1]; norm_num),
      hhp2]
  have hbh1 : round1.state.best_hp = some (initHP infoA) := by
    have hv1hp : trialHP (initState infoA) genB 1 = initHP infoA := rfl
    rw [round1, trial_success_best_hp, hv1.1,
      if_pos (by show (4:ℚ)/5 > (initState infoA).best_score; norm_num [initState]),
      hv1hp]
  refine ⟨hr1res, hbs1, by rw [round1]; exact hframe1.2.1, hr2res,
    by norm_num, hbh2, ?_, hbh1⟩
  intro h
  have := congrArg HP.num_layers h
  norm_num [hpB, hpA, initHP, infoA] at this

/-- C1 (amended): after a successful `trial` round, `best_hp` — and only
`best_hp` — is updated, to a snapshot of the round's configuration (the
embedding is pure, so the source's deep copy is the identity), if and
only if the round's validation score strictly exceeds `best_score`;
`best_score` itself and `best_preds` are never written (so `best_score`
remains the constructor's 0 forever, trivially monotone, and a tie with
it never updates). -/
theorem c1_theorem (s : State) (gen : Nat → HP) (sc : Nat → ℚ)
    (pr : Nat → Mat) (n : Nat) :
    (trial s gen (.success sc pr) n).state.best_score = s.best_score
    ∧ (trial s gen (.success sc pr) n).state.best_preds = s.best_preds
    ∧ ((train_valid { s with hyperparameters := trialHP s gen n }
          sc pr).1 > s.best_score →
        (trial s gen (.success sc pr) n).state.best_hp
          = some (trialHP s gen n))
    ∧ (¬ (train_valid { s with hyperparameters := trialHP s gen n }
          sc pr).1 > s.best_score →
        (trial s gen (.success sc pr) n).state.best_hp = s.best_hp)
    ∧ (trial s gen (.success sc pr) n).result
        = .ok (train_valid { s with hyperparameters := trialHP s gen n }
            sc pr).1 :=
  ⟨(trial_state_frame s gen (.success sc pr) n).1,
    (trial_state_frame s gen (.success sc pr) n).2.1,
    fun h => by rw [trial_success_best_hp, if_pos h],
    fun h => by rw [trial_success_best_hp, if_neg h],
    trial_success_result s gen sc pr n⟩

set_option maxRecDepth 8000 in
/-- Witness for C1 (amended), resolving the improvement guard positively
at a concrete round. -/
theorem c1_witness :
    (0 : ℚ) < 1
    ∧ (trial (initState infoA) genB
        (.success (fun _ => 1) (fun _ => [[1]])) 1).state.best_hp
        = some (trialHP (initState infoA) genB 1)
    ∧ (trial (initState infoA) genB
        (.success (fun _ => 1) (fun _ => [[1]])) 1).state.best_score
        = (initState infoA).best_score := by
  have hv := train_valid_const
    { initState infoA with
        hyperparameters := trialHP (initState infoA) genB 1 }
    1 (fun _ => 1) (fun _ => [[1]]) (fun _ => rfl) (by norm_num)
    (by norm_num [initState]) (by norm_num [initState])
  refine ⟨by norm_num, ?_, ?_⟩
  · exact (c1_theorem (initState infoA) genB (fun _ => 1) (fun _ => [[1]])
      1).2.2.1 (by rw [hv.1]; norm_num [initState])
  · exact (c1_theorem (initState infoA) genB (fun _ => 1) (fun _ => [[1]])
      1).1

/-! ## Claim C2 -/

set_option maxRecDepth 8000 in
/-- C2 counterexample: after round 1 (constant validation score 4/5,
test-mask softmax probabilities `[[3/4, 1/4]]`), `predict()` returns
exactly the cached probability matrix `[[3/4, 1/4]]` — one row of class
probabilities per held-out node, NOT an array of predicted class indices:
the single row has two entries (one probability per class), not one
class label, and the training loop never applies the argmax (`.max(1)[1]`)
to the cached test predictions. -/
theorem c2_counterexample :
    predict round1.state = some [[3/4, 1/4]]
    ∧ ¬ ∀ row ∈ [[(3 : ℚ)/4, 1/4]], row.length = 1 := by
  have hv1 := train_valid_const
    { initState infoA with
        hyperparameters := trialHP (initState infoA) genB 1 }
    (4/5) (fun _ => 4/5) (fun _ => [[3/4, 1/4]]) (fun _ => rfl)
    (by norm_num) (by norm_num [initState]) (by norm_num [initState])
  constructor
  · show round1.state.current_round_best_preds = some [[3/4, 1/4]]
    rw [round1, trial_success_current]
    exact hv1.2
  · intro h
    have := h [(3 : ℚ)/4, 1/4] (by simp)
    simp at this

/-- C2 (amended): `predict()` returns the test-mask prediction matrix
cached by the training loop — the softmax class-probability rows for the
held-out nodes, not argmaxed class indices — i.e. exactly what the most
recent round's `train_valid` left in `current_round_best_preds`: either
the predictions of one of its executed (improving) epochs, or, when no
epoch improved, whatever an earlier round had cached. -/
theorem c2_theorem (s : State) (gen : Nat → HP) (sc : Nat → ℚ)
    (pr : Nat → Mat) (n : Nat) :
    predict (trial s gen (.success sc pr) n).state
      = (train_valid { s with hyperparameters := trialHP s gen n }
          sc pr).2.current_round_best_preds
    ∧ (predict (trial s gen (.success sc pr) n).state
          = s.current_round_best_preds
        ∨ ∃ e ∈ List.range s.max_epochs,
            predict (trial s gen (.success sc pr) n).state
              = some (pr e)) := by
  have h1 : predict (trial s gen (.success sc pr) n).state
      = (train_valid { s with hyperparameters := trialHP s gen n }
          sc pr).2.current_round_best_preds :=
    trial_success_current s gen sc pr n
  refine ⟨h1, ?_⟩
  have h2 : (train_valid { s with hyperparameters := trialHP s gen n }
      sc pr).2.current_round_best_preds
      = (tvRun (s.max_patience : Int) sc pr (List.range s.max_epochs)
          (train_validInit
            { s with hyperparameters := trialHP s gen n })).1.cached :=
    rfl
  rcases tvRun_cached_origin (s.max_patience : Int) sc pr
      (List.range s.max_epochs)
      (train_validInit { s with hyperparameters := trialHP s gen n }) with
    h | ⟨e, he, h⟩
  · left
    rw [h1, h2, h]
    rfl
  · right
    exact ⟨e, he, by rw [h1, h2, h]⟩

set_option maxRecDepth 8000 in
/-- Witness for C2 (amended) at a concrete round. -/
theorem c2_witness :
    predict (trial (initState infoA) genB
        (.success (fun _ => 0) (fun _ => [])) 1).state
      = (train_valid
          { initState infoA with
              hyperparameters := trialHP (initState infoA) genB 1 }
          (fun _ => 0) (fun _ => [])).2.current_round_best_preds
    ∧ (predict (trial (initState infoA) genB
          (.success (fun _ => 0) (fun _ => [])) 1).state
        = (initState infoA).current_round_best_preds
      ∨ ∃ e ∈ List.range (initState infoA).max_epochs,
          predict (trial (initState infoA) genB
            (.success (fun _ => 0) (fun _ => [])) 1).state
            = some ((fun _ => ([] : Mat)) e)) :=
  c2_theorem (initState infoA) genB (fun _ => 0) (fun _ => []) 1

end ARMA
